import Mathlib

/-!
Verification of the wordle-solver match evaluator (src/main.rs).

Characters are modelled by their Unicode scalar values (`Nat`); a Rust `char`
comparison is code-point equality.  Each pass of the evaluator is a `for`
loop over positions `0 .. word.len()`; we embed it as a structurally
recursive function on the remaining iteration count (`fuel`), with the
current index passed alongside, so that the loop entered at index 0 with
fuel `word.length` visits exactly the indices the Rust loop does.  Every
slice read or write is modelled through `Option`: `none` is a Rust
out-of-bounds panic, `some` a normal result.
-/

/-- Unicode scalar values of a Rust string's characters, as naturals
(`word.chars().collect::<Vec<char>>()`). -/
def chars (s : String) : List Nat :=
  s.toList.map Char.toNat

/-- Rust `char::to_ascii_lowercase` on code points: maps A..Z (65..90) to
a..z (97..122) by adding 32, and is the identity elsewhere. -/
def to_ascii_lowercase (c : Nat) : Nat :=
  if 65 ≤ c ∧ c ≤ 90 then c + 32 else c

/-- Rust `char::eq_ignore_ascii_case`: equality after ASCII lowercasing. -/
def eq_ignore_ascii_case (a b : Nat) : Bool :=
  to_ascii_lowercase a == to_ascii_lowercase b

/-- The slice write `used_in_word[i] = v`: in bounds it updates the list,
out of bounds it panics (`none`). -/
def write_used (l : List Bool) (i : Nat) (v : Bool) : Option (List Bool) :=
  if i < l.length then some (l.set i v) else none

/-- Loop of `check_greens` (main.rs:40-47): at index `i` with `fuel`
iterations left.  A position whose pattern symbol is g/G must satisfy
`word[i] == guess[i]` (else the pass returns `false`) and is marked used. -/
def check_greens_go (word guess pattern : List Nat) (used : List Bool) (i fuel : Nat) :
    Option (Bool × List Bool) :=
  match fuel with
  | 0 => some (true, used)
  | fuel + 1 => do
    let p ← pattern[i]?
    if eq_ignore_ascii_case p 103 then do
      let w ← word[i]?
      let g ← guess[i]?
      if w != g then some (false, used)
      else do
        let used' ← write_used used i true
        check_greens_go word guess pattern used' (i + 1) fuel
    else check_greens_go word guess pattern used (i + 1) fuel

/-- Rust `check_greens` (main.rs:39-49): the green pass entered at index 0 for
`word.length` iterations. -/
def check_greens (word guess pattern : List Nat) (used : List Bool) :
    Option (Bool × List Bool) :=
  check_greens_go word guess pattern used 0 word.length

/-- Inner loop of `check_yellows` (main.rs:58-64): scan positions `j`
upward looking for an unused position, distinct from `i`, holding the
letter `g`; mark the first one used and report success, or report failure
after the last iteration. -/
def yellow_scan_go (word : List Nat) (g : Nat) (i : Nat) (used : List Bool) (j fuel : Nat) :
    Option (Bool × List Bool) :=
  match fuel with
  | 0 => some (false, used)
  | fuel + 1 => do
    let u ← used[j]?
    let w ← word[j]?
    if !u && w == g && j != i then do
      let used' ← write_used used j true
      some (true, used')
    else yellow_scan_go word g i used (j + 1) fuel

/-- Loop of `check_yellows` (main.rs:52-69): at a y/Y position the word
letter must differ from the guess letter, and an unused occurrence of the
guess letter must be found elsewhere in the word (scanned from 0). -/
def check_yellows_go (word guess pattern : List Nat) (used : List Bool) (i fuel : Nat) :
    Option (Bool × List Bool) :=
  match fuel with
  | 0 => some (true, used)
  | fuel + 1 => do
    let p ← pattern[i]?
    if eq_ignore_ascii_case p 121 then do
      let w ← word[i]?
      let g ← guess[i]?
      if w == g then some (false, used)
      else do
        let r ← yellow_scan_go word g i used 0 word.length
        if r.1 then check_yellows_go word guess pattern r.2 (i + 1) fuel
        else some (false, r.2)
    else check_yellows_go word guess pattern used (i + 1) fuel

/-- Rust `check_yellows` (main.rs:51-71): the yellow pass entered at index 0. -/
def check_yellows (word guess pattern : List Nat) (used : List Bool) :
    Option (Bool × List Bool) :=
  check_yellows_go word guess pattern used 0 word.length

/-- Inner loop of `check_blacks` (main.rs:76-80): succeed iff no unused
word position holds the letter `g`. -/
def black_scan_go (word : List Nat) (g : Nat) (used : List Bool) (j fuel : Nat) :
    Option Bool :=
  match fuel with
  | 0 => some true
  | fuel + 1 => do
    let u ← used[j]?
    let w ← word[j]?
    if !u && w == g then some false
    else black_scan_go word g used (j + 1) fuel

/-- Loop of `check_blacks` (main.rs:74-82): at a b/B position the guessed
letter must have no unused occurrence in the word. -/
def check_blacks_go (word guess pattern : List Nat) (used : List Bool) (i fuel : Nat) :
    Option Bool :=
  match fuel with
  | 0 => some true
  | fuel + 1 => do
    let p ← pattern[i]?
    if eq_ignore_ascii_case p 98 then do
      let g ← guess[i]?
      let ok ← black_scan_go word g used 0 word.length
      if ok then check_blacks_go word guess pattern used (i + 1) fuel
      else some false
    else check_blacks_go word guess pattern used (i + 1) fuel

/-- Rust `check_blacks` (main.rs:73-84): the black pass entered at index 0. -/
def check_blacks (word guess pattern : List Nat) (used : List Bool) : Option Bool :=
  check_blacks_go word guess pattern used 0 word.length

/-- Rust `matches_pattern` (main.rs:86-108): length guard, then the three passes
threaded through the usage-marks array, short-circuiting on the first
failing pass.  `none` models a panic, which the length guard in fact rules
out. -/
def matches_pattern (word guess pattern : List Nat) : Option Bool :=
  if word.length ≠ guess.length ∨ guess.length ≠ pattern.length then some false
  else do
    let used0 := List.replicate word.length false
    let r1 ← check_greens word guess pattern used0
    if !r1.1 then some false
    else do
      let r2 ← check_yellows word guess pattern r1.2
      if !r2.1 then some false
      else do
        let okb ← check_blacks word guess pattern r2.2
        if !okb then some false else some true

/-- The filter step of `main` (main.rs:163-166 and 173-176): keep the
candidates for which `matches_pattern` holds. -/
def apply_filter (candidates : List (List Nat)) (guess pattern : List Nat) :
    List (List Nat) :=
  candidates.filter fun w => matches_pattern w guess pattern == some true

/-- Spec-side rendering of the Yellow-pass search (claim C1): the first
word position `j`, scanned in increasing order from 0, that is not yet
marked used, differs from `i`, and holds the letter `g`. -/
def first_yellow_slot (word : List Nat) (g : Nat) (used : List Bool) (i : Nat) :
    Option Nat :=
  (List.range word.length).find? fun j => !(used.getD j false) && (word.getD j 0 == g) && (j != i)

/-- Spec-side rendering of the Black pass (claim C2): every position `i`
whose pattern symbol is b/B must have no unused word position `j` holding
the letter `guess[i]`. -/
def blacks_ok_spec (word guess pattern : List Nat) (used : List Bool) : Bool :=
  (List.range word.length).all fun i =>
    !(eq_ignore_ascii_case (pattern.getD i 0) 98) ||
    ((List.range word.length).all fun j =>
      used.getD j false || !(word.getD j 0 == guess.getD i 0))

/-- ASCII case toggle (claim C6): the opposite-case variant of an ASCII
letter, the identity on everything else. -/
def case_swap (c : Nat) : Nat :=
  if 65 ≤ c ∧ c ≤ 90 then c + 32
  else if 97 ≤ c ∧ c ≤ 122 then c - 32
  else c

/-! ## Helper lemmas -/

theorem getD_of_getElem? {α : Type} {l : List α} {i : Nat} {a d : α}
    (h : l[i]? = some a) : l.getD i d = a := by
  rw [List.getD_eq_getElem?_getD, h]
  rfl

theorem getElem?_eq_some_getD {α : Type} {l : List α} {i : Nat} (d : α)
    (h : i < l.length) : l[i]? = some (l.getD i d) := by
  rw [List.getD_eq_getElem?_getD, List.getElem?_eq_getElem h]
  rfl

theorem to_ascii_lowercase_case_swap (c : Nat) :
    to_ascii_lowercase (case_swap c) = to_ascii_lowercase c := by
  unfold to_ascii_lowercase case_swap
  split_ifs <;> omega

theorem eq_ignore_congr {a b : Nat}
    (h : to_ascii_lowercase a = to_ascii_lowercase b) (c : Nat) :
    eq_ignore_ascii_case a c = eq_ignore_ascii_case b c := by
  unfold eq_ignore_ascii_case
  rw [h]

/-- The yellow inner scan computes the spec-side first-unused-slot search:
it succeeds, marking the first suitable position, exactly when a suitable
position exists in the scanned range. -/
theorem yellow_scan_eq (word : List Nat) (g i : Nat) (fuel : Nat) :
    ∀ (j : Nat) (used : List Bool), used.length = word.length →
    j + fuel ≤ word.length →
    yellow_scan_go word g i used j fuel =
      some (match (List.range' j fuel).find?
              (fun k => !(used.getD k false) && (word.getD k 0 == g) && (k != i)) with
        | some k => (true, used.set k true)
        | none => (false, used)) := by
  induction fuel with
  | zero =>
    intro j used hu hj
    simp [yellow_scan_go, List.range']
  | succ fuel ih =>
    intro j used hu hj
    have hjw : j < word.length := by omega
    have hju : j < used.length := by omega
    have h1 : used[j]? = some (used.getD j false) := getElem?_eq_some_getD false hju
    have h2 : word[j]? = some (word.getD j 0) := getElem?_eq_some_getD 0 hjw
    have hgo : yellow_scan_go word g i used j (fuel + 1) =
        (if !(used.getD j false) && (word.getD j 0 == g) && (j != i) then
          Option.bind (write_used used j true) fun used' => some (true, used')
        else yellow_scan_go word g i used (j + 1) fuel) := by
      rw [yellow_scan_go, h1, h2]
      rfl
    rw [hgo, List.range'_succ]
    cases hb : (!(used.getD j false) && (word.getD j 0 == g) && (j != i)) with
    | true =>
      have hw : write_used used j true = some (used.set j true) := by
        simp [write_used, hju]
      rw [if_pos rfl, hw, List.find?_cons]
      simp only [hb, Option.some_bind]
    | false =>
      rw [if_neg (by simp)]
      simp only [List.find?_cons, hb]
      exact ih (j + 1) used hu (by omega)

/-- The black inner scan computes the spec-side all-occurrences-claimed
test over the scanned range. -/
theorem black_scan_eq (word : List Nat) (g : Nat) (fuel : Nat) :
    ∀ (j : Nat) (used : List Bool), used.length = word.length →
    j + fuel ≤ word.length →
    black_scan_go word g used j fuel =
      some ((List.range' j fuel).all fun k =>
        used.getD k false || !(word.getD k 0 == g)) := by
  induction fuel with
  | zero =>
    intro j used hu hj
    simp [black_scan_go, List.range']
  | succ fuel ih =>
    intro j used hu hj
    have hjw : j < word.length := by omega
    have hju : j < used.length := by omega
    have h1 : used[j]? = some (used.getD j false) := getElem?_eq_some_getD false hju
    have h2 : word[j]? = some (word.getD j 0) := getElem?_eq_some_getD 0 hjw
    have hgo : black_scan_go word g used j (fuel + 1) =
        (if !(used.getD j false) && (word.getD j 0 == g) then some false
        else black_scan_go word g used (j + 1) fuel) := by
      rw [black_scan_go, h1, h2]
      rfl
    rw [hgo, List.range'_succ, List.all_cons]
    cases hb : (!(used.getD j false) && (word.getD j 0 == g)) with
    | true =>
      have hb' : (used.getD j false || !(word.getD j 0 == g)) = false := by
        cases hu0 : used.getD j false <;> cases hw0 : (word.getD j 0 == g) <;>
          simp_all
      rw [if_pos rfl, hb']
      simp
    | false =>
      have hb' : (used.getD j false || !(word.getD j 0 == g)) = true := by
        cases hu0 : used.getD j false <;> cases hw0 : (word.getD j 0 == g) <;>
          simp_all
      rw [if_neg (by simp), hb', Bool.true_and]
      exact ih (j + 1) used hu (by omega)

/-- The black pass loop computes, position by position, the spec-side
no-unclaimed-occurrence condition over the remaining range. -/
theorem check_blacks_go_eq (word guess pattern : List Nat) (fuel : Nat) :
    ∀ (i : Nat) (used : List Bool), used.length = word.length →
    word.length ≤ guess.length → word.length ≤ pattern.length →
    i + fuel ≤ word.length →
    check_blacks_go word guess pattern used i fuel =
      some ((List.range' i fuel).all fun k =>
        !(eq_ignore_ascii_case (pattern.getD k 0) 98) ||
        ((List.range' 0 word.length).all fun j =>
          used.getD j false || !(word.getD j 0 == guess.getD k 0))) := by
  induction fuel with
  | zero =>
    intro i used hu hg hp hi
    simp [check_blacks_go, List.range']
  | succ fuel ih =>
    intro i used hu hg hp hi
    have hiw : i < word.length := by omega
    have hipat : i < pattern.length := by omega
    have hig : i < guess.length := by omega
    have h1 : pattern[i]? = some (pattern.getD i 0) := getElem?_eq_some_getD 0 hipat
    have h2 : guess[i]? = some (guess.getD i 0) := getElem?_eq_some_getD 0 hig
    have hscan := black_scan_eq word (guess.getD i 0) word.length 0 used hu (by omega)
    rw [check_blacks_go, h1, List.range'_succ, List.all_cons]
    simp only [Option.bind_eq_bind, Option.some_bind]
    cases hpb : eq_ignore_ascii_case (pattern.getD i 0) 98 with
    | true =>
      rw [if_pos rfl, h2]
      simp only [Option.bind_eq_bind, Option.some_bind]
      rw [hscan]
      simp only [Option.bind_eq_bind, Option.some_bind, Bool.not_true, Bool.false_or]
      cases hA : ((List.range' 0 word.length).all fun j =>
          used.getD j false || !(word.getD j 0 == guess.getD i 0)) with
      | true =>
        rw [if_pos rfl, Bool.true_and]
        exact ih (i + 1) used hu hg hp (by omega)
      | false =>
        rw [if_neg (by simp), Bool.false_and]
    | false =>
      rw [if_neg (by simp)]
      simp only [Bool.not_false, Bool.true_or, Bool.true_and]
      exact ih (i + 1) used hu hg hp (by omega)

/-- A pass skips every position whose symbol is not its target: green pass
version. -/
theorem check_greens_go_skip (word guess pattern : List Nat) (fuel : Nat)
    (hpat : ∀ (k : Nat) (p : Nat), pattern[k]? = some p → eq_ignore_ascii_case p 103 = false) :
    ∀ (i : Nat) (used : List Bool), i + fuel ≤ pattern.length →
    check_greens_go word guess pattern used i fuel = some (true, used) := by
  induction fuel with
  | zero =>
    intro i used hi
    simp [check_greens_go]
  | succ fuel ih =>
    intro i used hi
    have hip : i < pattern.length := by omega
    have h1 : pattern[i]? = some (pattern.getD i 0) := getElem?_eq_some_getD 0 hip
    have hfalse := hpat i _ h1
    rw [check_greens_go, h1]
    simp only [Option.bind_eq_bind, Option.some_bind, hfalse]
    rw [if_neg (by simp)]
    exact ih (i + 1) used (by omega)

/-- A pass skips every position whose symbol is not its target: yellow
pass version. -/
theorem check_yellows_go_skip (word guess pattern : List Nat) (fuel : Nat)
    (hpat : ∀ (k : Nat) (p : Nat), pattern[k]? = some p → eq_ignore_ascii_case p 121 = false) :
    ∀ (i : Nat) (used : List Bool), i + fuel ≤ pattern.length →
    check_yellows_go word guess pattern used i fuel = some (true, used) := by
  induction fuel with
  | zero =>
    intro i used hi
    simp [check_yellows_go]
  | succ fuel ih =>
    intro i used hi
    have hip : i < pattern.length := by omega
    have h1 : pattern[i]? = some (pattern.getD i 0) := getElem?_eq_some_getD 0 hip
    have hfalse := hpat i _ h1
    rw [check_yellows_go, h1]
    simp only [Option.bind_eq_bind, Option.some_bind, hfalse]
    rw [if_neg (by simp)]
    exact ih (i + 1) used (by omega)

/-- A pass skips every position whose symbol is not its target: black pass
version. -/
theorem check_blacks_go_skip (word guess pattern : List Nat) (fuel : Nat)
    (hpat : ∀ (k : Nat) (p : Nat), pattern[k]? = some p → eq_ignore_ascii_case p 98 = false) :
    ∀ (i : Nat) (used : List Bool), i + fuel ≤ pattern.length →
    check_blacks_go word guess pattern used i fuel = some true := by
  induction fuel with
  | zero =>
    intro i used hi
    simp [check_blacks_go]
  | succ fuel ih =>
    intro i used hi
    have hip : i < pattern.length := by omega
    have h1 : pattern[i]? = some (pattern.getD i 0) := getElem?_eq_some_getD 0 hip
    have hfalse := hpat i _ h1
    rw [check_blacks_go, h1]
    simp only [Option.bind_eq_bind, Option.some_bind, hfalse]
    rw [if_neg (by simp)]
    exact ih (i + 1) used (by omega)

/-- The green pass on `word` against itself with an all-green pattern
succeeds. -/
theorem check_greens_go_self (word pattern : List Nat) (fuel : Nat)
    (hpat : ∀ (k : Nat) (p : Nat), pattern[k]? = some p → eq_ignore_ascii_case p 103 = true) :
    ∀ (i : Nat) (used : List Bool), used.length = word.length →
    word.length ≤ pattern.length → i + fuel ≤ word.length →
    ∃ u', check_greens_go word word pattern used i fuel = some (true, u') ∧
      u'.length = used.length := by
  induction fuel with
  | zero =>
    intro i used hu hp hi
    exact ⟨used, by simp [check_greens_go], rfl⟩
  | succ fuel ih =>
    intro i used hu hp hi
    have hiw : i < word.length := by omega
    have hip : i < pattern.length := by omega
    have hiu : i < used.length := by omega
    have h1 : pattern[i]? = some (pattern.getD i 0) := getElem?_eq_some_getD 0 hip
    have h2 : word[i]? = some (word.getD i 0) := getElem?_eq_some_getD 0 hiw
    have htrue := hpat i _ h1
    have hw : write_used used i true = some (used.set i true) := by
      simp [write_used, hiu]
    obtain ⟨u', hrec, hlen⟩ := ih (i + 1) (used.set i true)
      (by simp [hu]) hp (by omega)
    refine ⟨u', ?_, by simpa using hlen⟩
    rw [check_greens_go, h1]
    simp only [Option.bind_eq_bind, Option.some_bind, htrue]
    rw [if_pos trivial, h2]
    simp only [Option.bind_eq_bind, Option.some_bind, bne_self_eq_false]
    rw [if_neg (by simp), hw]
    simpa using hrec

/-- The green pass never panics when the three strings and the marks array
share one length, and preserves the marks-array length. -/
theorem check_greens_go_total (word guess pattern : List Nat) (fuel : Nat) :
    ∀ (i : Nat) (used : List Bool), used.length = word.length →
    word.length ≤ guess.length → word.length ≤ pattern.length →
    i + fuel ≤ word.length →
    ∃ b u', check_greens_go word guess pattern used i fuel = some (b, u') ∧
      u'.length = used.length := by
  induction fuel with
  | zero =>
    intro i used hu hg hp hi
    exact ⟨true, used, by simp [check_greens_go], rfl⟩
  | succ fuel ih =>
    intro i used hu hg hp hi
    have hiw : i < word.length := by omega
    have hip : i < pattern.length := by omega
    have hig : i < guess.length := by omega
    have hiu : i < used.length := by omega
    have h1 : pattern[i]? = some (pattern.getD i 0) := getElem?_eq_some_getD 0 hip
    have h2 : word[i]? = some (word.getD i 0) := getElem?_eq_some_getD 0 hiw
    have h3 : guess[i]? = some (guess.getD i 0) := getElem?_eq_some_getD 0 hig
    have hw : write_used used i true = some (used.set i true) := by
      simp [write_used, hiu]
    rw [check_greens_go, h1]
    simp only [Option.bind_eq_bind, Option.some_bind]
    cases hpg : eq_ignore_ascii_case (pattern.getD i 0) 103 with
    | false =>
      rw [if_neg (by simp)]
      exact ih (i + 1) used hu hg hp (by omega)
    | true =>
      rw [if_pos rfl, h2, h3]
      simp only [Option.bind_eq_bind, Option.some_bind]
      cases hne : (word.getD i 0 != guess.getD i 0) with
      | true =>
        rw [if_pos rfl]
        exact ⟨false, used, rfl, rfl⟩
      | false =>
        rw [if_neg (by simp), hw]
        simp only [Option.bind_eq_bind, Option.some_bind]
        obtain ⟨b, u', hrec, hlen⟩ := ih (i + 1) (used.set i true)
          (by simp [hu]) hg hp (by omega)
        exact ⟨b, u', hrec, by simpa using hlen⟩

/-- The yellow pass never panics when the three strings and the marks
array share one length, and preserves the marks-array length. -/
theorem check_yellows_go_total (word guess pattern : List Nat) (fuel : Nat) :
    ∀ (i : Nat) (used : List Bool), used.length = word.length →
    word.length ≤ guess.length → word.length ≤ pattern.length →
    i + fuel ≤ word.length →
    ∃ b u', check_yellows_go word guess pattern used i fuel = some (b, u') ∧
      u'.length = used.length := by
  induction fuel with
  | zero =>
    intro i used hu hg hp hi
    exact ⟨true, used, by simp [check_yellows_go], rfl⟩
  | succ fuel ih =>
    intro i used hu hg hp hi
    have hiw : i < word.length := by omega
    have hip : i < pattern.length := by omega
    have hig : i < guess.length := by omega
    have h1 : pattern[i]? = some (pattern.getD i 0) := getElem?_eq_some_getD 0 hip
    have h2 : word[i]? = some (word.getD i 0) := getElem?_eq_some_getD 0 hiw
    have h3 : guess[i]? = some (guess.getD i 0) := getElem?_eq_some_getD 0 hig
    rw [check_yellows_go, h1]
    simp only [Option.bind_eq_bind, Option.some_bind]
    cases hpy : eq_ignore_ascii_case (pattern.getD i 0) 121 with
    | false =>
      rw [if_neg (by simp)]
      exact ih (i + 1) used hu hg hp (by omega)
    | true =>
      rw [if_pos rfl, h2, h3]
      simp only [Option.bind_eq_bind, Option.some_bind]
      cases heq : (word.getD i 0 == guess.getD i 0) with
      | true =>
        rw [if_pos rfl]
        exact ⟨false, used, rfl, rfl⟩
      | false =>
        rw [if_neg (by simp)]
        have hscan := yellow_scan_eq word (guess.getD i 0) i word.length 0 used hu
          (by omega)
        cases hfind : (List.range' 0 word.length).find?
            (fun k => !(used.getD k false) && (word.getD k 0 == guess.getD i 0) && (k != i)) with
        | none =>
          rw [hfind] at hscan
          rw [hscan]
          simp only [Option.bind_eq_bind, Option.some_bind]
          exact ⟨false, used, by rw [if_neg (by simp)], rfl⟩
        | some k =>
          rw [hfind] at hscan
          rw [hscan]
          simp only [Option.bind_eq_bind, Option.some_bind]
          obtain ⟨b, u', hrec, hlen⟩ := ih (i + 1) (used.set k true)
            (by simp [hu]) hg hp (by omega)
          exact ⟨b, u', by rw [if_pos trivial]; exact hrec, by simpa using hlen⟩

/-- The green pass reads pattern symbols only through their ASCII
lowercasing. -/
theorem check_greens_go_congr (word guess p1 p2 : List Nat) (fuel : Nat)
    (hlen : p1.length = p2.length)
    (hlow : ∀ k : Nat, to_ascii_lowercase (p1.getD k 0) = to_ascii_lowercase (p2.getD k 0)) :
    ∀ (i : Nat) (used : List Bool),
    check_greens_go word guess p1 used i fuel = check_greens_go word guess p2 used i fuel := by
  induction fuel with
  | zero =>
    intro i used
    rfl
  | succ fuel ih =>
    intro i used
    by_cases hip : i < p1.length
    · have h1 : p1[i]? = some (p1.getD i 0) := getElem?_eq_some_getD 0 hip
      have h2 : p2[i]? = some (p2.getD i 0) := getElem?_eq_some_getD 0 (hlen ▸ hip)
      have hcase : eq_ignore_ascii_case (p2.getD i 0) 103 =
          eq_ignore_ascii_case (p1.getD i 0) 103 :=
        (eq_ignore_congr (hlow i) 103).symm
      rw [check_greens_go, check_greens_go, h1, h2]
      simp only [Option.bind_eq_bind, Option.some_bind]
      rw [hcase]
      cases hpg : eq_ignore_ascii_case (p1.getD i 0) 103 with
      | false =>
        rw [if_neg (by simp), if_neg (by simp)]
        exact ih (i + 1) used
      | true =>
        rw [if_pos rfl, if_pos rfl]
        cases word[i]? with
        | none => rfl
        | some w =>
          cases guess[i]? with
          | none => rfl
          | some g =>
            simp only [Option.bind_eq_bind, Option.some_bind]
            cases hne : (w != g) with
            | true =>
              rw [if_pos rfl, if_pos rfl]
            | false =>
              rw [if_neg (by simp), if_neg (by simp)]
              cases write_used used i true with
              | none => rfl
              | some u' =>
                simp only [Option.bind_eq_bind, Option.some_bind]
                exact ih (i + 1) u'
    · have h1 : p1[i]? = none := List.getElem?_len_le (by omega)
      have h2 : p2[i]? = none := List.getElem?_len_le (by omega)
      rw [check_greens_go, check_greens_go, h1, h2]
      rfl

/-- The yellow pass reads pattern symbols only through their ASCII
lowercasing. -/
theorem check_yellows_go_congr (word guess p1 p2 : List Nat) (fuel : Nat)
    (hlen : p1.length = p2.length)
    (hlow : ∀ k : Nat, to_ascii_lowercase (p1.getD k 0) = to_ascii_lowercase (p2.getD k 0)) :
    ∀ (i : Nat) (used : List Bool),
    check_yellows_go word guess p1 used i fuel = check_yellows_go word guess p2 used i fuel := by
  induction fuel with
  | zero =>
    intro i used
    rfl
  | succ fuel ih =>
    intro i used
    by_cases hip : i < p1.length
    · have h1 : p1[i]? = some (p1.getD i 0) := getElem?_eq_some_getD 0 hip
      have h2 : p2[i]? = some (p2.getD i 0) := getElem?_eq_some_getD 0 (hlen ▸ hip)
      have hcase : eq_ignore_ascii_case (p2.getD i 0) 121 =
          eq_ignore_ascii_case (p1.getD i 0) 121 :=
        (eq_ignore_congr (hlow i) 121).symm
      rw [check_yellows_go, check_yellows_go, h1, h2]
      simp only [Option.bind_eq_bind, Option.some_bind]
      rw [hcase]
      cases hpy : eq_ignore_ascii_case (p1.getD i 0) 121 with
      | false =>
        rw [if_neg (by simp), if_neg (by simp)]
        exact ih (i + 1) used
      | true =>
        rw [if_pos rfl, if_pos rfl]
        cases word[i]? with
        | none => rfl
        | some w =>
          cases guess[i]? with
          | none => rfl
          | some g =>
            simp only [Option.bind_eq_bind, Option.some_bind]
            cases heq : (w == g) with
            | true =>
              rw [if_pos rfl, if_pos rfl]
            | false =>
              rw [if_neg (by simp), if_neg (by simp)]
              cases yellow_scan_go word g i used 0 word.length with
              | none => rfl
              | some r =>
                simp only [Option.bind_eq_bind, Option.some_bind]
                cases hr : r.1 with
                | true =>
                  rw [if_pos rfl, if_pos rfl]
                  exact ih (i + 1) r.2
                | false =>
                  rw [if_neg (by simp), if_neg (by simp)]
    · have h1 : p1[i]? = none := List.getElem?_len_le (by omega)
      have h2 : p2[i]? = none := List.getElem?_len_le (by omega)
      rw [check_yellows_go, check_yellows_go, h1, h2]
      rfl

/-- The black pass reads pattern symbols only through their ASCII
lowercasing. -/
theorem check_blacks_go_congr (word guess p1 p2 : List Nat) (fuel : Nat)
    (hlen : p1.length = p2.length)
    (hlow : ∀ k : Nat, to_ascii_lowercase (p1.getD k 0) = to_ascii_lowercase (p2.getD k 0)) :
    ∀ (i : Nat) (used : List Bool),
    check_blacks_go word guess p1 used i fuel = check_blacks_go word guess p2 used i fuel := by
  induction fuel with
  | zero =>
    intro i used
    rfl
  | succ fuel ih =>
    intro i used
    by_cases hip : i < p1.length
    · have h1 : p1[i]? = some (p1.getD i 0) := getElem?_eq_some_getD 0 hip
      have h2 : p2[i]? = some (p2.getD i 0) := getElem?_eq_some_getD 0 (hlen ▸ hip)
      have hcase : eq_ignore_ascii_case (p2.getD i 0) 98 =
          eq_ignore_ascii_case (p1.getD i 0) 98 :=
        (eq_ignore_congr (hlow i) 98).symm
      rw [check_blacks_go, check_blacks_go, h1, h2]
      simp only [Option.bind_eq_bind, Option.some_bind]
      rw [hcase]
      cases hpb : eq_ignore_ascii_case (p1.getD i 0) 98 with
      | false =>
        rw [if_neg (by simp), if_neg (by simp)]
        exact ih (i + 1) used
      | true =>
        rw [if_pos rfl, if_pos rfl]
        cases guess[i]? with
        | none => rfl
        | some g =>
          simp only [Option.bind_eq_bind, Option.some_bind]
          cases black_scan_go word g used 0 word.length with
          | none => rfl
          | some ok =>
            simp only [Option.bind_eq_bind, Option.some_bind]
            cases hok : ok with
            | true =>
              rw [if_pos rfl, if_pos rfl]
              exact ih (i + 1) used
            | false =>
              rw [if_neg (by simp), if_neg (by simp)]
    · have h1 : p1[i]? = none := List.getElem?_len_le (by omega)
      have h2 : p2[i]? = none := List.getElem?_len_le (by omega)
      rw [check_blacks_go, check_blacks_go, h1, h2]
      rfl

/-- Function `matches_pattern` reads pattern symbols only through their ASCII
lowercasing. -/
theorem matches_pattern_congr (word guess p1 p2 : List Nat)
    (hlen : p1.length = p2.length)
    (hlow : ∀ k : Nat, to_ascii_lowercase (p1.getD k 0) = to_ascii_lowercase (p2.getD k 0)) :
    matches_pattern word guess p1 = matches_pattern word guess p2 := by
  unfold matches_pattern
  by_cases hguard : word.length ≠ guess.length ∨ guess.length ≠ p1.length
  · rw [if_pos hguard, if_pos (by omega)]
  · rw [if_neg hguard, if_neg (by omega)]
    dsimp only
    have hG : check_greens word guess p1 (List.replicate word.length false) =
        check_greens word guess p2 (List.replicate word.length false) :=
      check_greens_go_congr word guess p1 p2 word.length hlen hlow 0 _
    rw [hG]
    cases check_greens word guess p2 (List.replicate word.length false) with
    | none => rfl
    | some r1 =>
      simp only [Option.bind_eq_bind, Option.some_bind]
      cases hb1 : r1.1 with
      | false =>
        rw [if_pos (by simp), if_pos (by simp)]
      | true =>
        rw [if_neg (by simp), if_neg (by simp)]
        have hY : check_yellows word guess p1 r1.2 = check_yellows word guess p2 r1.2 :=
          check_yellows_go_congr word guess p1 p2 word.length hlen hlow 0 _
        rw [hY]
        cases check_yellows word guess p2 r1.2 with
        | none => rfl
        | some r2 =>
          simp only [Option.bind_eq_bind, Option.some_bind]
          cases hb2 : r2.1 with
          | false =>
            rw [if_pos (by simp), if_pos (by simp)]
          | true =>
            rw [if_neg (by simp), if_neg (by simp)]
            have hB : check_blacks word guess p1 r2.2 = check_blacks word guess p2 r2.2 :=
              check_blacks_go_congr word guess p1 p2 word.length hlen hlow 0 _
            rw [hB]

/-- The black pass never panics when the three strings and the marks
array share one length. -/
theorem check_blacks_go_total (word guess pattern : List Nat) (fuel : Nat)
    (i : Nat) (used : List Bool) (hu : used.length = word.length)
    (hg : word.length ≤ guess.length) (hp : word.length ≤ pattern.length)
    (hi : i + fuel ≤ word.length) :
    ∃ ok, check_blacks_go word guess pattern used i fuel = some ok :=
  ⟨_, check_blacks_go_eq word guess pattern fuel i used hu hg hp hi⟩

/-! ## Claims -/

/-- Claim C1: at a position `i` whose pattern symbol is Yellow, the yellow
pass fails when `word[i] == guess[i]`; otherwise it scans word positions
`j` upward from 0, skipping `j == i` and used positions, marks used the
first `j` with `word[j] == guess[i]` and goes on; when no such position
exists it fails.  A failure of the yellow pass makes `matches_pattern`
return false (second conjunct).  `fuel` is the number of loop iterations
left after position `i`. -/
theorem yellow_pass_step_spec (word guess pattern : List Nat) (used : List Bool)
    (i fuel : Nat) (hg : word.length = guess.length)
    (hp : guess.length = pattern.length) (hu : used.length = word.length)
    (hf : i + fuel + 1 = word.length)
    (hy : eq_ignore_ascii_case (pattern.getD i 0) 121 = true) :
    (check_yellows_go word guess pattern used i (fuel + 1) =
      if word.getD i 0 == guess.getD i 0 then some (false, used)
      else
        match first_yellow_slot word (guess.getD i 0) used i with
        | some j => check_yellows_go word guess pattern (used.set j true) (i + 1) fuel
        | none => some (false, used)) ∧
    (∀ (used1 r : List Bool),
      check_greens word guess pattern (List.replicate word.length false) =
        some (true, used1) →
      check_yellows word guess pattern used1 = some (false, r) →
      matches_pattern word guess pattern = some false) := by
  have hiw : i < word.length := by omega
  have hip : i < pattern.length := by omega
  have hig : i < guess.length := by omega
  have h1 : pattern[i]? = some (pattern.getD i 0) := getElem?_eq_some_getD 0 hip
  have h2 : word[i]? = some (word.getD i 0) := getElem?_eq_some_getD 0 hiw
  have h3 : guess[i]? = some (guess.getD i 0) := getElem?_eq_some_getD 0 hig
  constructor
  · rw [check_yellows_go, h1]
    simp only [Option.bind_eq_bind, Option.some_bind, hy]
    rw [if_pos trivial, h2, h3]
    simp only [Option.bind_eq_bind, Option.some_bind]
    have hscan := yellow_scan_eq word (guess.getD i 0) i word.length 0 used hu (by omega)
    unfold first_yellow_slot
    simp only [List.range_eq_range']
    cases heq : (word.getD i 0 == guess.getD i 0) with
    | true =>
      rw [if_pos rfl, if_pos rfl]
    | false =>
      rw [if_neg (by simp), if_neg (by simp), hscan]
      simp only [Option.bind_eq_bind, Option.some_bind]
      cases hfind : (List.range' 0 word.length).find?
          (fun j => !(used.getD j false) && (word.getD j 0 == guess.getD i 0) && (j != i)) with
      | none =>
        dsimp only
        rw [if_neg (by simp)]
      | some k =>
        dsimp only
        rw [if_pos rfl]
  · intro used1 r hGr hYr
    unfold matches_pattern
    rw [if_neg (by omega)]
    dsimp only
    rw [hGr]
    simp only [Option.bind_eq_bind, Option.some_bind]
    rw [if_neg (by simp)]
    have hYr' : check_yellows word guess pattern (true, used1).2 = some (false, r) := hYr
    rw [hYr']
    simp only [Option.bind_eq_bind, Option.some_bind]
    rw [if_pos (by simp)]

/-- Claim C1 witness: a concrete instance of the yellow step
characterization and of failure propagation (the guess letter c has no
slot in the word, so the whole match fails). -/
theorem yellow_pass_step_spec_witness :
    (eq_ignore_ascii_case ((chars "yb").getD 0 0) 121 = true ∧
    check_yellows_go (chars "ab") (chars "ca") (chars "yb") [false, false] 0 (1 + 1) =
      (if (chars "ab").getD 0 0 == (chars "ca").getD 0 0 then some (false, [false, false])
      else
        match first_yellow_slot (chars "ab") ((chars "ca").getD 0 0) [false, false] 0 with
        | some j => check_yellows_go (chars "ab") (chars "ca") (chars "yb")
            ([false, false].set j true) (0 + 1) 1
        | none => some (false, [false, false]))) ∧
    matches_pattern (chars "ab") (chars "ca") (chars "yb") = some false := by
  have h := yellow_pass_step_spec (chars "ab") (chars "ca") (chars "yb")
    [false, false] 0 1 (by decide) (by decide) (by decide) (by decide) (by decide)
  exact ⟨⟨by decide, h.1⟩, h.2 [false, false] [false, false] (by decide) (by decide)⟩

/-- Claim C2: with the marks array `used` produced by the earlier passes,
the black pass succeeds exactly when no position whose pattern symbol is
Black has an unused word position holding its guess letter — so a
Black-marked letter whose occurrences are all claimed passes; when the
green and yellow passes succeed with marks `used`, the result of
`matches_pattern` is exactly this condition (second conjunct), so it is
false whenever some Black position has an unclaimed occurrence. -/
theorem black_pass_spec (word guess pattern : List Nat) (used : List Bool)
    (hg : word.length = guess.length) (hp : guess.length = pattern.length)
    (hu : used.length = word.length) :
    (check_blacks word guess pattern used =
      some (blacks_ok_spec word guess pattern used)) ∧
    (∀ used1 : List Bool,
      check_greens word guess pattern (List.replicate word.length false) =
        some (true, used1) →
      check_yellows word guess pattern used1 = some (true, used) →
      matches_pattern word guess pattern =
        some (blacks_ok_spec word guess pattern used)) := by
  have hmain : check_blacks word guess pattern used =
      some (blacks_ok_spec word guess pattern used) := by
    unfold check_blacks blacks_ok_spec
    simp only [List.range_eq_range']
    exact check_blacks_go_eq word guess pattern word.length 0 used hu (by omega)
      (by omega) (by omega)
  refine ⟨hmain, ?_⟩
  intro used1 hGr hYr
  unfold matches_pattern
  rw [if_neg (by omega)]
  dsimp only
  rw [hGr]
  simp only [Option.bind_eq_bind, Option.some_bind]
  rw [if_neg (by simp)]
  have hYr' : check_yellows word guess pattern (true, used1).2 = some (true, used) := hYr
  rw [hYr']
  simp only [Option.bind_eq_bind, Option.some_bind]
  rw [if_neg (by simp)]
  have hmain' : check_blacks word guess pattern (true, used).2 =
      some (blacks_ok_spec word guess pattern used) := hmain
  rw [hmain']
  simp only [Option.bind_eq_bind, Option.some_bind]
  cases hspec : blacks_ok_spec word guess pattern used with
  | true =>
    rw [if_neg (by simp)]
  | false =>
    rw [if_pos (by simp)]

/-- Claim C2 witness: a concrete instance of both conjuncts; the Black
mark on the repeated a fails because the word holds an unclaimed a. -/
theorem black_pass_spec_witness :
    check_blacks (chars "ab") (chars "ba") (chars "bb") [true, false] =
      some (blacks_ok_spec (chars "ab") (chars "ba") (chars "bb") [true, false]) ∧
    matches_pattern (chars "ab") (chars "ab") (chars "bb") =
      some (blacks_ok_spec (chars "ab") (chars "ab") (chars "bb") [false, false]) := by
  constructor
  · exact (black_pass_spec (chars "ab") (chars "ba") (chars "bb") [true, false]
      (by decide) (by decide) (by decide)).1
  · exact (black_pass_spec (chars "ab") (chars "ab") (chars "bb") [false, false]
      (by decide) (by decide) (by decide)).2 [false, false] (by decide) (by decide)

/-- Claim C3 counterexample: the spec's example `matches("abcde","edcba","bbgbb")`
does not return true — the Black marks on e, d, b, a fail because those
letters sit unused in the word. -/
theorem bbgbb_example_refuted :
    ¬ (matches_pattern (chars "abcde") (chars "edcba") (chars "bbgbb") = some true) := by
  decide

/-- Claim C3 as amended: `matches("abcde","edcba","bbgbb")` returns false. -/
theorem bbgbb_example_value :
    matches_pattern (chars "abcde") (chars "edcba") (chars "bbgbb") = some false := by
  decide

/-- Claim C4: a length mismatch between word, guess and pattern makes
`matches_pattern` return false; in this embedding a panic would be `none`,
so returning `some false` also shows no error is raised. -/
theorem matches_pattern_length_mismatch (word guess pattern : List Nat)
    (h : word.length ≠ guess.length ∨ guess.length ≠ pattern.length) :
    matches_pattern word guess pattern = some false := by
  unfold matches_pattern
  rw [if_pos h]

/-- Claim C4 witness: a concrete mismatched triple. -/
theorem matches_pattern_length_mismatch_witness :
    ((chars "abc").length ≠ (chars "ab").length ∨
      (chars "ab").length ≠ (chars "gg").length) ∧
    matches_pattern (chars "abc") (chars "ab") (chars "gg") = some false :=
  ⟨by decide, matches_pattern_length_mismatch (chars "abc") (chars "ab") (chars "gg")
    (by decide)⟩

/-- Claim C5: a pattern symbol that is neither g, y nor b in either case
imposes no constraint: each pass steps over such a position unchanged,
and a pattern made only of such symbols accepts any word and guess of its
length. -/
theorem wildcard_pattern_symbols :
    (∀ (word guess pattern : List Nat) (used : List Bool) (i fuel : Nat) (p : Nat),
      pattern[i]? = some p →
      eq_ignore_ascii_case p 103 = false → eq_ignore_ascii_case p 121 = false →
      eq_ignore_ascii_case p 98 = false →
      check_greens_go word guess pattern used i (fuel + 1) =
        check_greens_go word guess pattern used (i + 1) fuel ∧
      check_yellows_go word guess pattern used i (fuel + 1) =
        check_yellows_go word guess pattern used (i + 1) fuel ∧
      check_blacks_go word guess pattern used i (fuel + 1) =
        check_blacks_go word guess pattern used (i + 1) fuel) ∧
    (∀ (word guess pattern : List Nat),
      word.length = guess.length → guess.length = pattern.length →
      (∀ p ∈ pattern, eq_ignore_ascii_case p 103 = false ∧
        eq_ignore_ascii_case p 121 = false ∧ eq_ignore_ascii_case p 98 = false) →
      matches_pattern word guess pattern = some true) := by
  constructor
  · intro word guess pattern used i fuel p hip hg hy hb
    refine ⟨?_, ?_, ?_⟩
    · rw [check_greens_go, hip]
      simp only [Option.bind_eq_bind, Option.some_bind, hg]
      rw [if_neg (by simp)]
    · rw [check_yellows_go, hip]
      simp only [Option.bind_eq_bind, Option.some_bind, hy]
      rw [if_neg (by simp)]
    · rw [check_blacks_go, hip]
      simp only [Option.bind_eq_bind, Option.some_bind, hb]
      rw [if_neg (by simp)]
  · intro word guess pattern hg hp hall
    have hmem : ∀ (k p : Nat), pattern[k]? = some p → p ∈ pattern :=
      fun k p h => List.getElem?_mem h
    unfold matches_pattern
    rw [if_neg (by omega)]
    dsimp only
    have hG : check_greens word guess pattern (List.replicate word.length false) =
        some (true, List.replicate word.length false) :=
      check_greens_go_skip word guess pattern word.length
        (fun k p h => (hall p (hmem k p h)).1) 0 _ (by omega)
    rw [hG]
    simp only [Option.bind_eq_bind, Option.some_bind]
    rw [if_neg (by simp)]
    have hY : check_yellows word guess pattern (true, List.replicate word.length false).2 =
        some (true, List.replicate word.length false) :=
      check_yellows_go_skip word guess pattern word.length
        (fun k p h => (hall p (hmem k p h)).2.1) 0 _ (by omega)
    rw [hY]
    simp only [Option.bind_eq_bind, Option.some_bind]
    rw [if_neg (by simp)]
    have hB : check_blacks word guess pattern (true, List.replicate word.length false).2 =
        some true :=
      check_blacks_go_skip word guess pattern word.length
        (fun k p h => (hall p (hmem k p h)).2.2) 0 _ (by omega)
    rw [hB]
    simp only [Option.bind_eq_bind, Option.some_bind]
    rw [if_neg (by simp)]

/-- Claim C5 witness: x and z constrain nothing; a two-step instance and a
full pattern of unknown symbols accepting a mismatching guess. -/
theorem wildcard_pattern_symbols_witness :
    ((chars "xz")[0]? = some 120 ∧ eq_ignore_ascii_case 120 103 = false ∧
      eq_ignore_ascii_case 120 121 = false ∧ eq_ignore_ascii_case 120 98 = false ∧
      check_greens_go (chars "ab") (chars "cd") (chars "xz") [false, false] 0 (1 + 1) =
        check_greens_go (chars "ab") (chars "cd") (chars "xz") [false, false] (0 + 1) 1) ∧
    matches_pattern (chars "ab") (chars "cd") (chars "xz") = some true := by
  constructor
  · refine ⟨by decide, by decide, by decide, by decide, ?_⟩
    exact (wildcard_pattern_symbols.1 (chars "ab") (chars "cd") (chars "xz")
      [false, false] 0 1 120 (by decide) (by decide) (by decide) (by decide)).1
  · exact wildcard_pattern_symbols.2 (chars "ab") (chars "cd") (chars "xz")
      (by decide) (by decide) (by decide)

/-- Claim C6: replacing any pattern symbols by their opposite-case
variants leaves the result of `matches_pattern` unchanged; in particular
G, Y, B behave like g, y, b. -/
theorem pattern_case_insensitive (word guess p1 p2 : List Nat)
    (hlen : p1.length = p2.length)
    (hswap : ∀ i < p1.length, p2.getD i 0 = p1.getD i 0 ∨
      p2.getD i 0 = case_swap (p1.getD i 0)) :
    matches_pattern word guess p2 = matches_pattern word guess p1 := by
  have hlow : ∀ k : Nat,
      to_ascii_lowercase (p1.getD k 0) = to_ascii_lowercase (p2.getD k 0) := by
    intro k
    by_cases hk : k < p1.length
    · rcases hswap k hk with h | h
      · rw [h]
      · rw [h, to_ascii_lowercase_case_swap]
    · rw [List.getD_eq_default _ _ (by omega), List.getD_eq_default _ _ (by omega)]
  exact (matches_pattern_congr word guess p1 p2 hlen hlow).symm

/-- Claim C6 witness: the uppercase pattern GYB gives the same result as
gyb. -/
theorem pattern_case_insensitive_witness :
    (chars "gyb").length = (chars "GYB").length ∧
    matches_pattern (chars "abc") (chars "abc") (chars "GYB") =
      matches_pattern (chars "abc") (chars "abc") (chars "gyb") :=
  ⟨by decide, pattern_case_insensitive (chars "abc") (chars "abc")
    (chars "gyb") (chars "GYB") (by decide) (by decide)⟩

/-- Claim C7: with an all-Green pattern of the word's length, a word
matches itself. -/
theorem matches_all_green_self (word pattern : List Nat)
    (hlen : pattern.length = word.length)
    (hg : ∀ p ∈ pattern, eq_ignore_ascii_case p 103 = true) :
    matches_pattern word word pattern = some true := by
  have hpat : ∀ (k p : Nat), pattern[k]? = some p → eq_ignore_ascii_case p 103 = true :=
    fun k p h => hg p (List.getElem?_mem h)
  have hlowg : ∀ (k p : Nat), pattern[k]? = some p → to_ascii_lowercase p = 103 := by
    intro k p h
    have h2 := hpat k p h
    unfold eq_ignore_ascii_case at h2
    rw [beq_iff_eq] at h2
    rw [h2]
    decide
  have hy : ∀ (k p : Nat), pattern[k]? = some p → eq_ignore_ascii_case p 121 = false := by
    intro k p h
    unfold eq_ignore_ascii_case
    rw [hlowg k p h]
    decide
  have hb : ∀ (k p : Nat), pattern[k]? = some p → eq_ignore_ascii_case p 98 = false := by
    intro k p h
    unfold eq_ignore_ascii_case
    rw [hlowg k p h]
    decide
  unfold matches_pattern
  rw [if_neg (by omega)]
  dsimp only
  obtain ⟨u1, hG, hlen1⟩ := check_greens_go_self word pattern word.length hpat 0
    (List.replicate word.length false) (by simp) (by omega) (by omega)
  have hG' : check_greens word word pattern (List.replicate word.length false) =
      some (true, u1) := hG
  rw [hG']
  simp only [Option.bind_eq_bind, Option.some_bind]
  rw [if_neg (by simp)]
  have hY : check_yellows word word pattern (true, u1).2 = some (true, u1) :=
    check_yellows_go_skip word word pattern word.length hy 0 u1 (by omega)
  rw [hY]
  simp only [Option.bind_eq_bind, Option.some_bind]
  rw [if_neg (by simp)]
  have hB : check_blacks word word pattern (true, u1).2 = some true :=
    check_blacks_go_skip word word pattern word.length hb 0 u1 (by omega)
  rw [hB]
  simp only [Option.bind_eq_bind, Option.some_bind]
  rw [if_neg (by simp)]

/-- Claim C7 witness: the spec's own example, with a mixed-case all-Green
pattern added. -/
theorem matches_all_green_self_witness :
    matches_pattern (chars "abcde") (chars "abcde") (chars "ggGgG") = some true :=
  matches_all_green_self (chars "abcde") (chars "ggGgG") (by decide) (by decide)

/-- Claim C8: filtering a candidate list twice with the same guess and
pattern equals filtering it once. -/
theorem apply_filter_idempotent (candidates : List (List Nat)) (guess pattern : List Nat) :
    apply_filter (apply_filter candidates guess pattern) guess pattern =
      apply_filter candidates guess pattern := by
  unfold apply_filter
  rw [List.filter_filter]
  congr 1
  funext w
  rw [Bool.and_self]

/-- Claim C9: the filtered list is the subsequence of the input whose
members satisfy `matches_pattern`, so survivors keep their relative
order. -/
theorem apply_filter_sublist_mem (candidates : List (List Nat)) (guess pattern : List Nat) :
    (apply_filter candidates guess pattern).Sublist candidates ∧
    (∀ w, w ∈ apply_filter candidates guess pattern ↔
      w ∈ candidates ∧ matches_pattern w guess pattern = some true) := by
  constructor
  · exact List.filter_sublist candidates
  · intro w
    unfold apply_filter
    rw [List.mem_filter]
    constructor
    · rintro ⟨h1, h2⟩
      exact ⟨h1, by simpa using h2⟩
    · rintro ⟨h1, h2⟩
      exact ⟨h1, by simpa using h2⟩

/-- Claim C10: `matches_pattern` is total — for every input it returns a
boolean, never the `none` that models an out-of-bounds panic, because the
length guard puts every index of the three passes in bounds. -/
theorem matches_pattern_total (word guess pattern : List Nat) :
    ∃ b : Bool, matches_pattern word guess pattern = some b := by
  unfold matches_pattern
  by_cases hlen : word.length ≠ guess.length ∨ guess.length ≠ pattern.length
  · rw [if_pos hlen]
    exact ⟨false, rfl⟩
  · rw [if_neg hlen]
    dsimp only
    push_neg at hlen
    obtain ⟨hg, hp⟩ := hlen
    obtain ⟨b1, u1, hG, hl1⟩ := check_greens_go_total word guess pattern word.length 0
      (List.replicate word.length false) (by simp) (by omega) (by omega) (by omega)
    have hG' : check_greens word guess pattern (List.replicate word.length false) =
        some (b1, u1) := hG
    rw [hG']
    simp only [Option.bind_eq_bind, Option.some_bind]
    cases b1 with
    | false =>
      exact ⟨false, by rw [if_pos (by simp)]⟩
    | true =>
      rw [if_neg (by simp)]
      have hu1 : u1.length = word.length := by simpa using hl1
      obtain ⟨b2, u2, hY, hl2⟩ := check_yellows_go_total word guess pattern word.length 0 u1
        hu1 (by omega) (by omega) (by omega)
      have hY' : check_yellows word guess pattern (true, u1).2 = some (b2, u2) := hY
      rw [hY']
      simp only [Option.bind_eq_bind, Option.some_bind]
      cases b2 with
      | false =>
        exact ⟨false, by rw [if_pos (by simp)]⟩
      | true =>
        rw [if_neg (by simp)]
        have hu2 : u2.length = word.length := by
          rw [hl2, hu1]
        obtain ⟨ok, hB⟩ := check_blacks_go_total word guess pattern word.length 0 u2
          hu2 (by omega) (by omega) (by omega)
        have hB' : check_blacks word guess pattern (true, u2).2 = some ok := hB
        rw [hB']
        simp only [Option.bind_eq_bind, Option.some_bind]
        cases ok with
        | false =>
          exact ⟨false, by rw [if_pos (by simp)]⟩
        | true =>
          exact ⟨true, by rw [if_neg (by simp)]⟩
